import Mathlib

/-!
Verification development for the intent-to-state mutation pipeline of the
`mzhub-react` repository (src/src/utils/stateMachine.ts,
src/src/validation/schemaValidator.ts, src/src/validation/selfCorrection.ts,
the rollback manager, src/src/compiler (prompt builder) and
src/src/hooks/useSemanticState.ts).

Modelling conventions:
* JavaScript runtime JSON values are the mutual inductive `JValue`
  (arrays and objects carry their own list types so that structural
  recursion is available).
* JavaScript numbers are modelled as exact rationals (`ℚ`).  The literals
  `0.3`, `0.4`, `0.7` of the source are the exact rationals `mkRat 3 10`,
  `mkRat 2 5`, `mkRat 7 10`; `x / y` on numbers is `mkRat`/exact division.
* Strings are Lean `String`s; the character-level operations
  (`trim`, `slice`, `lastIndexOf`, the code-fence regular expression of
  `extractJson`) are implemented on `List Char`.
* `Date.now()` / `Math.random()` only feed snapshot / audit identifiers;
  they are determinised by a per-structure counter.  Nothing proved here
  depends on the identifier text.
* Asynchrony: the hook's dispatch awaits each inference call in order, so
  it is modelled as a sequential function; the inference capability is a
  function from the (1-based) call number and the prompt to the response
  text, which is how a stateful mock that answers per call is embedded.
-/

namespace Synapse

/-! ## JSON runtime values (the `T` state values and parsed JSON data) -/

mutual

/-- A JavaScript JSON value: the domain of states, parsed model output and
`JSON.stringify` / `JSON.parse`. -/
inductive JValue where
  | null : JValue
  | bool (b : Bool) : JValue
  | num (q : ℚ) : JValue
  | str (s : String) : JValue
  | arr (elems : JArray) : JValue
  | obj (fields : JFields) : JValue

/-- Element list of a JSON array. -/
inductive JArray where
  | nil : JArray
  | cons (head : JValue) (tail : JArray) : JArray

/-- Field list of a JSON object (insertion order, as in JS objects). -/
inductive JFields where
  | nil : JFields
  | cons (key : String) (value : JValue) (tail : JFields) : JFields

end

/-- Convenience conversion from a Lean list of values to `JArray`. -/
def JArray.ofList : List JValue → JArray
  | [] => .nil
  | v :: t => .cons v (JArray.ofList t)

/-- Convenience conversion from a Lean association list to `JFields`. -/
def JFields.ofList : List (String × JValue) → JFields
  | [] => .nil
  | (k, v) :: t => .cons k v (JFields.ofList t)

/-- Length of a `JArray` (the `.length` of a JS array). -/
def JArray.length : JArray → Nat
  | .nil => 0
  | .cons _ t => 1 + JArray.length t

/-! ### `JSON.stringify` (compact form, used by the state machine heuristics) -/

/-- Lower-case hex digit. -/
def hexDigit (n : Nat) : Char :=
  if n < 10 then Char.ofNat (48 + n) else Char.ofNat (87 + n)

/-- JSON string escaping of one character, as `JSON.stringify` performs it:
quote and backslash are escaped, the control characters with short escapes
use them, remaining control characters become `\u00xx`. -/
def escapeChar (c : Char) : List Char :=
  if c = '"' then ['\\', '"']
  else if c = '\\' then ['\\', '\\']
  else if c = '\n' then ['\\', 'n']
  else if c = '\r' then ['\\', 'r']
  else if c = '\t' then ['\\', 't']
  else if c = '\x08' then ['\\', 'b']
  else if c = '\x0c' then ['\\', 'f']
  else if c.toNat < 32 then
    ['\\', 'u', '0', '0', hexDigit (c.toNat / 16), hexDigit (c.toNat % 16)]
  else [c]

/-- A JSON string literal with quotes and escapes. -/
def quoteString (s : String) : String :=
  "\"" ++ String.mk (s.toList.foldr (fun c acc => escapeChar c ++ acc) []) ++ "\""

/-- Left-pad the decimal representation of `m` with zeros to `k` digits. -/
def padDigits (m k : Nat) : String :=
  let s := toString m
  String.mk (List.replicate (k - s.length) '0') ++ s

/-- Serialisation of a JS number.  Integers print without a decimal point;
non-integral values (always of the form `p / 10^k` here, since JSON input
numbers are finite decimals) print as their exact shortest decimal.  The
final fallback branch is unreachable for values produced by `JSON.parse`
and merely keeps the function total. -/
def stringifyNum (q : ℚ) : String :=
  if q.den = 1 then toString q.num
  else
    match (List.range 64).find? (fun k => q.den ∣ 10 ^ k) with
    | some k =>
      let scaled : Nat := (q.num.natAbs * (10 ^ k / q.den))
      let sign := if q.num < 0 then "-" else ""
      sign ++ toString (scaled / 10 ^ k) ++ "." ++ padDigits (scaled % 10 ^ k) k
    | none => toString q.num ++ "/" ++ toString q.den

mutual

/-- Model of `JSON.stringify(v)` (no spacing argument). -/
def stringify : JValue → String
  | .null => "null"
  | .bool true => "true"
  | .bool false => "false"
  | .num q => stringifyNum q
  | .str s => quoteString s
  | .arr es => "[" ++ stringifyElems es ++ "]"
  | .obj fs => "\x7b" ++ stringifyFields fs ++ "\x7d"

/-- Array elements joined by `,`. -/
def stringifyElems : JArray → String
  | .nil => ""
  | .cons v .nil => stringify v
  | .cons v t => stringify v ++ "," ++ stringifyElems t

/-- Object fields `"key":value` joined by `,`. -/
def stringifyFields : JFields → String
  | .nil => ""
  | .cons k v .nil => quoteString k ++ ":" ++ stringify v
  | .cons k v t => quoteString k ++ ":" ++ stringify v ++ "," ++ stringifyFields t

end

/-- Indentation in the `"  ".repeat(n)` style: `n` spaces. -/
def spaces (n : Nat) : String := String.mk (List.replicate n ' ')

mutual

/-- Model of `JSON.stringify(v, null, 2)` at indentation level `indent`
(the pretty form the prompt compiler embeds in prompts). -/
def stringifyPretty : Nat → JValue → String
  | _, .null => "null"
  | _, .bool true => "true"
  | _, .bool false => "false"
  | _, .num q => stringifyNum q
  | _, .str s => quoteString s
  | _, .arr .nil => "[]"
  | indent, .arr es =>
    "[\n" ++ prettyElems (indent + 2) es ++ "\n" ++ spaces indent ++ "]"
  | _, .obj .nil => "\x7b\x7d"
  | indent, .obj fs =>
    "\x7b\n" ++ prettyFields (indent + 2) fs ++ "\n" ++ spaces indent ++ "\x7d"

/-- Pretty array elements, one per line. -/
def prettyElems : Nat → JArray → String
  | indent, .nil => spaces indent
  | indent, .cons v .nil => spaces indent ++ stringifyPretty indent v
  | indent, .cons v t =>
    spaces indent ++ stringifyPretty indent v ++ ",\n" ++ prettyElems indent t

/-- Pretty object fields, one per line, `"key": value`. -/
def prettyFields : Nat → JFields → String
  | indent, .nil => spaces indent
  | indent, .cons k v .nil => spaces indent ++ quoteString k ++ ": " ++ stringifyPretty indent v
  | indent, .cons k v t =>
    spaces indent ++ quoteString k ++ ": " ++ stringifyPretty indent v ++ ",\n" ++
      prettyFields indent t

end

/-! ## State machine (`src/src/utils/stateMachine.ts`) -/

/-- The lifecycle states of `MachineState`. -/
inductive MachineState where
  | IDLE | OPTIMISTIC | GENERATING | VALIDATING
  | CORRECTING | GATING | SETTLED | REJECTED
  deriving DecidableEq, Repr

/-- One row of the transition table. -/
structure MTransition where
  src : MachineState
  event : String
  tgt : MachineState

/-- The `TRANSITIONS` table, row for row. -/
def TRANSITIONS : List MTransition := [
  ⟨.IDLE, "DISPATCH", .OPTIMISTIC⟩,
  ⟨.IDLE, "DISPATCH_NO_OPTIMISTIC", .GENERATING⟩,
  ⟨.OPTIMISTIC, "START_INFERENCE", .GENERATING⟩,
  ⟨.GENERATING, "RESPONSE_RECEIVED", .VALIDATING⟩,
  ⟨.GENERATING, "ERROR", .REJECTED⟩,
  ⟨.VALIDATING, "VALID", .GATING⟩,
  ⟨.VALIDATING, "INVALID", .CORRECTING⟩,
  ⟨.CORRECTING, "RETRY", .GENERATING⟩,
  ⟨.CORRECTING, "MAX_RETRIES", .REJECTED⟩,
  ⟨.GATING, "CONFIDENT", .SETTLED⟩,
  ⟨.GATING, "NEEDS_CONFIRMATION", .GATING⟩,
  ⟨.GATING, "USER_CONFIRMED", .SETTLED⟩,
  ⟨.GATING, "USER_REJECTED", .REJECTED⟩,
  ⟨.SETTLED, "RESET", .IDLE⟩,
  ⟨.REJECTED, "RESET", .IDLE⟩]

/-- Model of `getNextState`: look the `(from, event)` pair up in `TRANSITIONS`;
`none` models the `null` result for an undefined transition. -/
def getNextState (src : MachineState) (event : String) : Option MachineState :=
  (TRANSITIONS.find? (fun t => decide (t.src = src) && decide (t.event = event))).map
    (fun t => t.tgt)

/-- Count of positions at which the two serialised strings agree
(the `sameChars` loop of `calculateConfidence`, running to the shorter
length). -/
def sameChars : List Char → List Char → Nat
  | x :: xs, y :: ys => (if x = y then 1 else 0) + sameChars xs ys
  | _, _ => 0

/-- The structural-difference ratio `1 - sameChars / maxLen` computed by
`calculateConfidence` on the two serialised states. -/
def diffRatio (prevString newString : String) : ℚ :=
  let maxLen := max prevString.length newString.length
  1 - mkRat (sameChars prevString.toList newString.toList) maxLen

/-- Model of `calculateConfidence`:
`modelConfidence * 0.4 + (1 - diffRatio) * 0.3 + intentClarity * 0.3`,
clamped to `[0, 1]`, with `intentClarity = min(1, intent.length / 50)`. -/
def calculateConfidence (previousState newState : JValue) (intent : String)
    (modelConfidence : ℚ := mkRat 7 10) : ℚ :=
  let d := diffRatio (stringify previousState) (stringify newState)
  let intentClarity : ℚ := min 1 (mkRat intent.length 50)
  let confidence :=
    modelConfidence * mkRat 2 5 + (1 - d) * mkRat 3 10 + intentClarity * mkRat 3 10
  max 0 (min 1 confidence)

/-- Model of `isDestructiveChange(previousState, newState)`: true when the serialised
size collapses below 30% of a previous size exceeding 50 characters, or when
both top-level values are arrays and a non-empty array became empty. -/
def isDestructiveChange (previousState newState : JValue) : Bool :=
  let prevSize := (stringify previousState).length
  let newSize := (stringify newState).length
  if prevSize > 50 && decide ((newSize : ℚ) < (prevSize : ℚ) * mkRat 3 10) then
    true
  else
    match previousState, newState with
    | .arr prevElems, .arr newElems =>
      prevElems.length > 0 && newElems.length = 0
    | _, _ => false

/-! ## Schema validator (`src/src/validation/schemaValidator.ts`) -/

/-- The whitespace class used by `trim` and the `\s` of the code-fence
regular expression (the ASCII portion; the Unicode spaces JS also accepts
cannot occur in the inputs treated here). -/
def jsWhitespace (c : Char) : Bool :=
  c == ' ' || c == '\t' || c == '\n' || c == '\r' || c == '\x0b' || c == '\x0c'

/-- Model of `String.prototype.trim()` on a character list. -/
def jsTrim (l : List Char) : List Char :=
  (l.dropWhile jsWhitespace).rdropWhile jsWhitespace

/-- Index of the first occurrence of `pat` as a contiguous substring. -/
def findSubIdx (pat : List Char) : List Char → Option Nat
  | [] => if pat.isPrefixOf [] then some 0 else none
  | c :: t =>
    if pat.isPrefixOf (c :: t) then some 0 else (findSubIdx pat t).map (· + 1)

/-- The opening-brace character, written by code point to keep brace
characters out of string literals. -/
def openBraceChar : Char := Char.ofNat 123

/-- The closing-brace character. -/
def closeBraceChar : Char := Char.ofNat 125

/-- The three-backtick fence delimiter. -/
def fenceChars : List Char := [Char.ofNat 96, Char.ofNat 96, Char.ofNat 96]

/-- The input position right after the opening fence at index `i`, the
optional literal `json` and the greedy whitespace of the code-fence
regular expression (the point where its capture group starts). -/
def fenceRemainder (text : List Char) (i : Nat) : List Char :=
  (if ['j', 's', 'o', 'n'].isPrefixOf (text.drop (i + 3))
   then (text.drop (i + 3)).drop 4
   else text.drop (i + 3)).dropWhile jsWhitespace

/-- The code-fence step of `extractJson`: the first match of
`/```(?:json)?\s*([\s\S]*?)```/` replaces the text by its trimmed capture
group; with no match the text is unchanged.  The regular expression is
executed directly: find the first fence, optionally consume a literal
`json`, greedily consume whitespace, then capture lazily up to the next
fence. -/
def codeBlockExtract (text : List Char) : List Char :=
  match findSubIdx fenceChars text with
  | none => text
  | some i =>
    match findSubIdx fenceChars (fenceRemainder text i) with
    | none => text
    | some j => jsTrim ((fenceRemainder text i).take j)

/-- Model of `text.search(/[\[{]/)`: index of the first `[` or brace character. -/
def firstIdxP (p : Char → Bool) : List Char → Option Nat
  | [] => none
  | c :: t => if p c then some 0 else (firstIdxP p t).map (· + 1)

/-- Last index satisfying `p`, in the `text.lastIndexOf(c)` style
(`none` models the `-1` result). -/
def lastIdxP (p : Char → Bool) : List Char → Option Nat
  | [] => none
  | c :: t =>
    match lastIdxP p t with
    | some i => some (i + 1)
    | none => if p c then some 0 else none

/-- An opening JSON boundary character (`[` or `{`). -/
def isOpenCh (c : Char) : Bool := c == '[' || c == openBraceChar

/-- A closing JSON boundary character (`]` or `}`). -/
def isCloseCh (c : Char) : Bool := c == ']' || c == closeBraceChar

/-- The `Math.max` of the two `lastIndexOf` results, where `none` is `-1`. -/
def optMax : Option Nat → Option Nat → Option Nat
  | none, b => b
  | some x, none => some x
  | some x, some y => some (max x y)

/-- The boundary-slicing step of `extractJson`: slice from the first
`[`/`{` to the last `]`/`}` when the latter lies strictly beyond the
former, otherwise return the empty string. -/
def boundarySlice (text : List Char) : List Char :=
  match firstIdxP isOpenCh text,
        optMax (lastIdxP (fun c => c == ']') text)
               (lastIdxP (fun c => c == closeBraceChar) text) with
  | some s, some e => if s < e then (text.take (e + 1)).drop s else []
  | _, _ => []

/-- Model of `extractJson(response)`: empty input yields `""`; otherwise trim, run
the code-fence extraction, then the boundary slice. -/
def extractJson (response : String) : String :=
  if response = "" then ""
  else String.mk (boundarySlice (codeBlockExtract (jsTrim response.toList)))

/-- The property "the response text contains no `[`/`{` … `]`/`}`
boundaries": no opening boundary character is followed (strictly later)
by a closing one. -/
abbrev NoPayloadBoundaries (l : List Char) : Prop :=
  l.Pairwise (fun a b => isOpenCh a = true → isCloseCh b = true → False)

/-! ### `JSON.parse` -/

/-- JSON insignificant whitespace. -/
def jsonWs (c : Char) : Bool := c == ' ' || c == '\t' || c == '\n' || c == '\r'

/-- Hexadecimal digit value. -/
def hexVal (c : Char) : Option Nat :=
  if 48 ≤ c.toNat ∧ c.toNat ≤ 57 then some (c.toNat - 48)
  else if 97 ≤ c.toNat ∧ c.toNat ≤ 102 then some (c.toNat - 87)
  else if 65 ≤ c.toNat ∧ c.toNat ≤ 70 then some (c.toNat - 55)
  else none

/-- Body of a JSON string literal after the opening quote: the decoded
characters and the rest of the input after the closing quote.  Escape
sequences follow the JSON grammar; a `\uXXXX` escape that does not denote
a valid scalar value maps to `NUL` (lone surrogates are degenerate JS
strings not representable in Lean's `Char`). -/
def parseStringBody : Nat → List Char → Option (List Char × List Char)
  | 0, _ => none
  | _, [] => none
  | fuel + 1, c :: t =>
    if c = '"' then some ([], t)
    else if c = '\\' then
      match t with
      | [] => none
      | e :: r =>
        let cont (ch : Char) (r' : List Char) : Option (List Char × List Char) :=
          (parseStringBody fuel r').map (fun p => (ch :: p.1, p.2))
        if e = '"' then cont '"' r
        else if e = '\\' then cont '\\' r
        else if e = '/' then cont '/' r
        else if e = 'n' then cont '\n' r
        else if e = 't' then cont '\t' r
        else if e = 'r' then cont '\r' r
        else if e = 'b' then cont '\x08' r
        else if e = 'f' then cont '\x0c' r
        else if e = 'u' then
          match r with
          | h1 :: h2 :: h3 :: h4 :: r' =>
            match hexVal h1, hexVal h2, hexVal h3, hexVal h4 with
            | some a, some b, some c2, some d =>
              cont (Char.ofNat (((a * 16 + b) * 16 + c2) * 16 + d)) r'
            | _, _, _, _ => none
          | _ => none
        else none
    else if c.toNat < 32 then none
    else (parseStringBody fuel t).map (fun p => (c :: p.1, p.2))

/-- Decimal value of a digit list. -/
def digitsVal (ds : List Char) : Nat :=
  ds.foldl (fun acc c => acc * 10 + (c.toNat - 48)) 0

/-- Signed exponent digits after `e`/`E`. -/
def parseSignedDigits (l : List Char) : Option (Int × List Char) :=
  let (neg, l1) : Bool × List Char :=
    match l with
    | '-' :: t => (true, t)
    | '+' :: t => (false, t)
    | _ => (false, l)
  let ds := l1.takeWhile Char.isDigit
  if ds = [] then none
  else some (if neg then -(digitsVal ds : Int) else (digitsVal ds : Int),
             l1.dropWhile Char.isDigit)

/-- Optional exponent part; `(0, l)` when no `e`/`E` marker is present. -/
def parseExpPart (l : List Char) : Option (Int × List Char) :=
  match l with
  | 'e' :: t => parseSignedDigits t
  | 'E' :: t => parseSignedDigits t
  | _ => some (0, l)

/-- Natural power of a rational, by explicit recursion so that the kernel
can evaluate it. -/
def qpowNat (q : ℚ) : Nat → ℚ
  | 0 => mkRat 1 1
  | n + 1 => q * qpowNat q n

/-- Integer power of a rational (for the exponent part of a JSON number);
the negative case inverts through `mkRat`. -/
def qpowInt (q : ℚ) (e : Int) : ℚ :=
  match e with
  | .ofNat n => qpowNat q n
  | .negSucc n =>
    let p := qpowNat q (n + 1)
    mkRat (if p.num < 0 then -(p.den : Int) else (p.den : Int)) p.num.natAbs

/-- A JSON number per the JSON grammar (optional minus, integer part
without leading zeros, optional fraction, optional exponent), as an exact
rational. -/
def parseNumber (l : List Char) : Option (ℚ × List Char) :=
  let (neg, l1) : Bool × List Char :=
    match l with
    | '-' :: t => (true, t)
    | _ => (false, l)
  let intDigits := l1.takeWhile Char.isDigit
  let r1 := l1.dropWhile Char.isDigit
  if intDigits = [] then none
  else if intDigits.length > 1 && intDigits.headD '0' = '0' then none
  else
    let fracStep : Option (List Char × List Char) :=
      match r1 with
      | '.' :: t =>
        let fd := t.takeWhile Char.isDigit
        if fd = [] then none else some (fd, t.dropWhile Char.isDigit)
      | _ => some ([], r1)
    match fracStep with
    | none => none
    | some (fracDigits, r2) =>
      match parseExpPart r2 with
      | none => none
      | some (e, r3) =>
        let base : ℚ :=
          mkRat (digitsVal intDigits) 1 + mkRat (digitsVal fracDigits) (10 ^ fracDigits.length)
        let signed := if neg then -base else base
        some (signed * qpowInt (mkRat 10 1) e, r3)

/-- Elements of a non-empty JSON array after the opening bracket, given
the value parser `pv` for the current fuel level. -/
def parseElemsAux (pv : List Char → Option (JValue × List Char)) :
    Nat → List Char → Option (JArray × List Char)
  | 0, _ => none
  | fuel + 1, l =>
    match pv l with
    | none => none
    | some (v, r) =>
      match r.dropWhile jsonWs with
      | ',' :: r' =>
        match parseElemsAux pv fuel r' with
        | some (vs, r2) => some (.cons v vs, r2)
        | none => none
      | ']' :: r' => some (.cons v .nil, r')
      | _ => none

/-- Fields of a non-empty JSON object after the opening brace. -/
def parseFieldsAux (pv : List Char → Option (JValue × List Char)) :
    Nat → List Char → Option (JFields × List Char)
  | 0, _ => none
  | fuel + 1, l =>
    match l.dropWhile jsonWs with
    | '"' :: r =>
      match parseStringBody (r.length + 1) r with
      | none => none
      | some (k, r1) =>
        match r1.dropWhile jsonWs with
        | ':' :: r2 =>
          match pv r2 with
          | none => none
          | some (v, r3) =>
            match r3.dropWhile jsonWs with
            | ',' :: r4 =>
              match parseFieldsAux pv fuel r4 with
              | some (fs, r5) => some (.cons (String.mk k) v fs, r5)
              | none => none
            | d :: r4 =>
              if d = closeBraceChar then some (.cons (String.mk k) v .nil, r4) else none
            | [] => none
        | _ => none
    | _ => none

/-- One JSON value (with leading whitespace) and the remaining input. -/
def parseValue : Nat → List Char → Option (JValue × List Char)
  | 0, _ => none
  | fuel + 1, l =>
    match l.dropWhile jsonWs with
    | [] => none
    | c :: rest =>
      if c = '[' then
        match rest.dropWhile jsonWs with
        | ']' :: r' => some (.arr .nil, r')
        | _ =>
          match parseElemsAux (parseValue fuel) (rest.length + 1) rest with
          | some (es, r') => some (.arr es, r')
          | none => none
      else if c = openBraceChar then
        match rest.dropWhile jsonWs with
        | [] => none
        | d :: r' =>
          if d = closeBraceChar then some (.obj .nil, r')
          else
            match parseFieldsAux (parseValue fuel) (rest.length + 1) rest with
            | some (fs, r2) => some (.obj fs, r2)
            | none => none
      else if c = '"' then
        match parseStringBody (rest.length + 1) rest with
        | some (s, r) => some (.str (String.mk s), r)
        | none => none
      else if c = 't' then
        if ['r', 'u', 'e'].isPrefixOf rest then some (.bool true, rest.drop 3) else none
      else if c = 'f' then
        if ['a', 'l', 's', 'e'].isPrefixOf rest then some (.bool false, rest.drop 4) else none
      else if c = 'n' then
        if ['u', 'l', 'l'].isPrefixOf rest then some (.null, rest.drop 3) else none
      else
        match parseNumber (c :: rest) with
        | some (q, r) => some (.num q, r)
        | none => none

/-- Model of `JSON.parse(s)`: one value covering the whole input up to trailing
whitespace; `none` models the thrown `SyntaxError`, which the caller
(`validateResponse`) catches. -/
def parseJson (s : String) : Option JValue :=
  match parseValue (s.toList.length + 1) s.toList with
  | some (v, rest) => if rest.dropWhile jsonWs = [] then some v else none
  | none => none

/-! ### Validation results and the zod schema interface -/

/-- One structural mismatch, as mapped from a zod issue
(`path` dotted, `received` rendered; `received` is kept as its textual
form since only its presence matters to the properties below). -/
structure ValidationError where
  path : String
  message : String
  expected : String
  received : String
  deriving DecidableEq, Repr

/-- The `ValidationResult` record of the source. -/
structure ValidationResult (T : Type) where
  success : Bool
  data : Option T
  errors : List ValidationError
  rawJson : String

/-- Outcome of `schema.safeParse`: zod failures always carry at least one
issue, encoded head/tail. -/
inductive ZParseResult (T : Type) where
  | ok (data : T)
  | fail (first : ValidationError) (rest : List ValidationError)

/-- A zod schema as the validator consumes it: a structural checker plus
the `zodToDescription` rendering the prompt compiler embeds. -/
structure SchemaModel (T : Type) where
  description : String
  safeParse : JValue → ZParseResult T

/-- Model of `s.slice(a, b)` for strings (indices clamped as in JS). -/
def jsSliceStr (s : String) (a b : Nat) : String :=
  String.mk ((s.toList.take b).drop a)

/-- Model of `validateAgainstSchema(schema, data)`. -/
def validateAgainstSchema {T : Type} (schema : SchemaModel T) (data : JValue) :
    ValidationResult T :=
  match schema.safeParse data with
  | .ok d => ⟨true, some d, [], stringify data⟩
  | .fail e es => ⟨false, none, e :: es, stringify data⟩

/-- Model of `validateResponse(response, schema)`: extract, parse, check.  The JS
engine's parse-error text (appended after `JSON parse error: ` in the
source) is environment-specific and not modelled. -/
def validateResponse {T : Type} (response : String) (schema : SchemaModel T) :
    ValidationResult T :=
  let jsonString := extractJson response
  if jsonString = "" then
    ⟨false, none,
      [⟨"", "No JSON found in response", "JSON object or array",
        jsSliceStr response 0 100 ++ "..."⟩], ""⟩
  else
    match parseJson jsonString with
    | none =>
      ⟨false, none,
        [⟨"", "JSON parse error", "Valid JSON", jsSliceStr jsonString 0 100 ++ "..."⟩],
        jsonString⟩
    | some parsed => validateAgainstSchema schema parsed

/-- Model of `formatErrorsForCorrection(errors)`. -/
def formatErrorsForCorrection (errors : List ValidationError) : String :=
  if errors = [] then ""
  else
    let lines := errors.map (fun err =>
      if err.path ≠ "" then
        "- Field \"" ++ err.path ++ "\": " ++ err.message ++ ". Expected: " ++
          err.expected ++ ", got: " ++ quoteString err.received
      else "- " ++ err.message)
    "The following validation errors occurred:\n" ++ String.intercalate "\n" lines

/-- A schema accepting every value (`z.any()`), used to instantiate
statements that hold for arbitrary schemas. -/
def anySchema : SchemaModel JValue :=
  ⟨"unknown", fun v => .ok v⟩

/-! ## Self-correction loop (`src/src/validation/selfCorrection.ts`) -/

/-- One inference attempt within a dispatch. -/
structure AttemptRecord where
  response : String
  errors : List ValidationError
  prompt : String

/-- The `CorrectionResult` record of the source. -/
structure CorrectionResult (T : Type) where
  success : Bool
  data : Option T
  attempts : Nat
  history : List AttemptRecord

/-- Model of `buildCorrectionPrompt(originalPrompt, invalidResponse, errors)`. -/
def buildCorrectionPrompt (originalPrompt invalidResponse : String)
    (errors : List ValidationError) : String :=
  let errorDetails := formatErrorsForCorrection errors
  "Your previous response was invalid JSON or did not match the required schema.\n\nPREVIOUS RESPONSE:\n" ++
    jsSliceStr invalidResponse 0 500 ++
    (if invalidResponse.length > 500 then "..." else "") ++
    "\n\nVALIDATION ERRORS:\n" ++ errorDetails ++
    "\n\nPlease fix your response. Output ONLY valid JSON that matches the schema.\nDo not include any explanation or markdown formatting.\nJust output the corrected JSON.\n\nORIGINAL REQUEST:\n" ++
    originalPrompt

/-- The `while (attempts < settings.maxRetries)` loop of
`executeWithCorrection`, with `fuel = maxRetries - attempts` so the loop
guard is structural.  The inference capability receives the 1-based call
number (how a stateful mock answering per call is embedded) and the
current prompt.  Two instrumentation streams are threaded through:
`callLog` records one entry per inference invocation (to state call-count
bounds), and `st : σ` is the state of the caller-supplied `onRetry`
callback (pure for the plain loop, the hook state for `dispatch`). -/
def execAux {T σ : Type} (schema : SchemaModel T) (infer : Nat → String → String)
    (originalPrompt : String) (onRetry : Nat → List ValidationError → σ → σ) :
    Nat → Nat → String → List AttemptRecord → List String → σ →
      CorrectionResult T × List String × σ
  | 0, attempts, _, history, callLog, st =>
    (⟨false, none, attempts, history⟩, callLog, st)
  | fuel + 1, attempts, currentPrompt, history, callLog, st =>
    let attempts' := attempts + 1
    let response := infer attempts' currentPrompt
    let validation := validateResponse response schema
    let history' := history ++ [⟨response, validation.errors, currentPrompt⟩]
    let callLog' := callLog ++ [response]
    if validation.success then
      (⟨true, validation.data, attempts', history'⟩, callLog', st)
    else if fuel = 0 then
      (⟨false, none, attempts', history'⟩, callLog', st)
    else
      execAux schema infer originalPrompt onRetry fuel attempts'
        (buildCorrectionPrompt originalPrompt response validation.errors)
        history' callLog' (onRetry attempts' validation.errors st)

/-- Model of `executeWithCorrection`: run the
loop from zero attempts with the initial prompt. -/
def executeWithCorrection {T σ : Type} (schema : SchemaModel T)
    (infer : Nat → String → String) (prompt : String) (maxRetries : Nat)
    (onRetry : Nat → List ValidationError → σ → σ) (st : σ) :
    CorrectionResult T × List String × σ :=
  execAux schema infer prompt onRetry maxRetries 0 prompt [] [] st

/-! ## Prompt compiler (`buildPrompt` of `src/src/compiler`) -/

/-- Model of `buildPrompt`: the fixed
template around `zodToDescription(schema)` (carried as
`SchemaModel.description`), `JSON.stringify(currentState, null, 2)`, the
intent and the optional context block. -/
def buildPrompt (schemaDescription : String) (currentState : JValue)
    (intent context : String) : String :=
  let stateJson := stringifyPretty 0 currentState
  let contextSection := if context ≠ "" then "\nCONTEXT:\n" ++ context ++ "\n" else ""
  "SYSTEM:\nYou are a state manager for a React application.\nYou must output valid JSON that matches the following TypeScript schema.\n" ++
    contextSection ++ "\nSCHEMA:\n" ++ schemaDescription ++ "\n\nCURRENT STATE:\n" ++
    stateJson ++ "\n\nUSER INTENT:\n\"" ++ intent ++
    "\"\n\nINSTRUCTIONS:\n1. Analyze the USER INTENT and determine what changes to make to CURRENT STATE.\n2. Apply the changes while maintaining the schema structure.\n3. Preserve existing data unless the intent explicitly requires removing it.\n4. Generate new unique IDs for new items (use format: \"id_\" + random alphanumeric).\n5. Output ONLY the new complete state as valid JSON.\n6. Do NOT include any explanation, markdown, or extra text.\n\nOUTPUT:"

/-! ## The dispatch of `useSemanticState` (`src/src/hooks/useSemanticState.ts`) -/

/-- One accepted transition of the audit log (`createAuditEntry` also
stamps an id and timestamp from `Date.now`/`Math.random`; these are
nondeterministic and carry no information used below, so they are
omitted). -/
structure AuditRecord where
  src : MachineState
  tgt : MachineState
  event : String
  deriving DecidableEq, Repr

/-- The per-hook state a dispatch reads and writes: the committed `state`,
the machine state, the `StateContext` fields the hook maintains
(`currentIntent`, `error`, `retryCount`, `confidence`, `history`) and the
pending-confirmation slot.  `StateContext.data`/`optimisticData` are
initialised but never updated by the hook and are omitted.  Two
instrumentation fields record externally observable calls: `inferLog`
(one entry per inference-capability invocation) and `snapshotCalls` (one
entry per `RollbackManager.snapshot` invocation; the hook constructs no
rollback manager and contains no such call, so dispatch never appends to
it). -/
structure DispatchState where
  state : JValue
  machineState : MachineState
  currentIntent : Option String
  error : Option String
  retryCount : Nat
  confidence : ℚ
  history : List AuditRecord
  pendingState : Option JValue
  inferLog : List String
  snapshotCalls : List (JValue × String)

/-- The `transition` helper of the hook: apply `getNextState`; on a
defined transition append one audit record, otherwise leave the state
unchanged (invalid transitions are logged no-ops). -/
def transitionStep (s : DispatchState) (event : String) : DispatchState :=
  match getNextState s.machineState event with
  | some next =>
    { s with machineState := next,
             history := s.history ++ [⟨s.machineState, next, event⟩] }
  | none => s

/-- Hook state as initialised by `useState`/`createInitialContext`. -/
def initialDispatchState (initialData : JValue) : DispatchState :=
  { state := initialData, machineState := .IDLE, currentIntent := none,
    error := none, retryCount := 0, confidence := mkRat 1 1, history := [],
    pendingState := none, inferLog := [], snapshotCalls := [] }

/-- The dispatch entry point of `useSemanticState`, for a single dispatch
(no concurrent dispatch, so the abort signal is never set).  `gate` is the
optional `onGate` callback; `pendingDecision` is the eventual
confirm/reject answer of the manual-confirmation path (the resolution of
the pending promise), only consulted when gating triggers without a gate
callback.  Inference transport failures (the `catch` branch emitting
`ERROR`) are outside the claims treated here and the capability is total. -/
def dispatch (schema : SchemaModel JValue) (maxRetries : Nat)
    (confidenceThreshold : ℚ) (context : String)
    (gate : Option (JValue → JValue → ℚ → Bool)) (pendingDecision : Bool)
    (infer : Nat → String → String) (s0 : DispatchState) (intent : String) :
    DispatchState :=
  let s := { s0 with currentIntent := some intent, error := none }
  let s := transitionStep s "DISPATCH_NO_OPTIMISTIC"
  let prompt := buildPrompt schema.description s.state intent context
  let res := executeWithCorrection schema infer prompt maxRetries
    (fun attempt _errors st => transitionStep { st with retryCount := attempt } "RETRY") s
  let result := res.1
  let s := res.2.2
  let s := { s with inferLog := s.inferLog ++ res.2.1 }
  let s := transitionStep s "RESPONSE_RECEIVED"
  match result.data, result.success with
  | some newState, true =>
    let s := transitionStep s "VALID"
    let confidence := calculateConfidence s.state newState intent
    let s := { s with confidence := confidence }
    let isDestr := isDestructiveChange s.state newState
    if confidence < confidenceThreshold ∨ isDestr = true then
      let s := transitionStep s "NEEDS_CONFIRMATION"
      match gate with
      | some g =>
        let s :=
          if g newState s.state confidence then
            transitionStep { s with state := newState } "USER_CONFIRMED"
          else transitionStep s "USER_REJECTED"
        transitionStep s "RESET"
      | none =>
        let s := { s with pendingState := some newState }
        let s :=
          if pendingDecision then
            transitionStep { s with state := newState } "USER_CONFIRMED"
          else transitionStep s "USER_REJECTED"
        let s := { s with pendingState := none }
        transitionStep s "RESET"
    else
      let s := transitionStep { s with state := newState } "CONFIDENT"
      transitionStep s "RESET"
  | _, _ =>
    let s := { s with error := some "Failed to generate valid state after retries" }
    transitionStep s "MAX_RETRIES"

/-- The end-to-end scenario of the spec's §8: empty todo state, an
inference capability that always answers the non-JSON text `"not json"`,
`maxRetries = 3`. -/
def exhaustedRetriesRun : DispatchState :=
  dispatch anySchema 3 (mkRat 7 10) "" none true (fun _ _ => "not json")
    (initialDispatchState (.obj (.ofList [("items", .arr .nil)]))) "Add buy milk"

/-! ## Rollback manager (`rollbackManager.ts`), value level

The manager's history bookkeeping (`snapshot` push/trim, `rollbackTo`,
`availableRollbacks`) is modelled on pure snapshot values, generic in the
data type `T`.  The `snap_${Date.now()}_${random}` identifiers and
timestamps are determinised by a per-manager counter; at this level
`deepClone` is the identity on the value content (the aliasing content of
deep cloning is treated in the heap model below). -/

/-- The `StateSnapshot` record of the source. -/
structure StateSnapshot (T : Type) where
  id : String
  timestamp : Nat
  data : T
  intent : String

/-- A `RollbackManager` instance: its private snapshot list, the
configured maximum, and the determinised id counter. -/
structure RollbackManager (T : Type) where
  snapshots : List (StateSnapshot T)
  maxSnapshots : Nat
  counter : Nat

/-- A manager fresh from the constructor (`maxSnapshots` defaults to 10
at the call sites that pass no config). -/
def freshManager (T : Type) (maxSnapshots : Nat) : RollbackManager T :=
  ⟨[], maxSnapshots, 0⟩

/-- The `while (this.snapshots.length > this.maxSnapshots) shift()` trim
loop, with the list length as structural fuel (each pass removes one
element). -/
def trimFrontAux {α : Type} : Nat → Nat → List α → List α
  | 0, _, l => l
  | fuel + 1, maxSnapshots, l =>
    if l.length > maxSnapshots then trimFrontAux fuel maxSnapshots l.tail else l

/-- Trim from the front until the length is within the maximum. -/
def trimFront {α : Type} (maxSnapshots : Nat) (l : List α) : List α :=
  trimFrontAux l.length maxSnapshots l

/-- The snapshot record `snapshot` builds before pushing (id and
timestamp determinised by the counter). -/
def RollbackManager.pushedSnapshot {T : Type} (m : RollbackManager T) (data : T)
    (intent : String) : StateSnapshot T :=
  ⟨"snap_" ++ toString m.counter, m.counter, data, intent⟩

/-- Model of `snapshot(data, intent)`: build the snapshot (deep-cloned data),
append it, trim old snapshots from the front, return the new id. -/
def RollbackManager.snapshot {T : Type} (m : RollbackManager T) (data : T)
    (intent : String) : RollbackManager T × String :=
  let snap := m.pushedSnapshot data intent
  (⟨trimFront m.maxSnapshots (m.snapshots ++ [snap]), m.maxSnapshots, m.counter + 1⟩,
    snap.id)

/-- Model of `availableRollbacks`: `Math.max(0, snapshots.length - 1)` (over JS
numbers, hence the `Int` subtraction). -/
def RollbackManager.availableRollbacks {T : Type} (m : RollbackManager T) : Int :=
  max 0 ((m.snapshots.length : Int) - 1)

/-- Model of `getLastGoodState()`: deep clone of the newest snapshot's data. -/
def RollbackManager.getLastGoodState {T : Type} (m : RollbackManager T) : Option T :=
  (m.snapshots.getLast?).map (fun s => s.data)

/-- A sequence of `snapshot` calls applied in order. -/
def applySnapshots {T : Type} : RollbackManager T → List (T × String) → RollbackManager T
  | m, [] => m
  | m, (d, i) :: rest => applySnapshots (m.snapshot d i).1 rest

/-! ## Heap model for `RollbackManager.deepClone`

`deepClone` returns primitives as-is and otherwise performs
`structuredClone` (a recursive copy of the reachable object graph into
fresh cells).  To state the frame property of claim-level interest —
mutating the original object in place after `snapshot` does not alter the
stored snapshot's data — mutation must exist, so the object graph is made
explicit: a heap is a list of cells addressed by position, a cell is a
primitive, an array of addresses, or an object of keyed addresses;
in-place mutation overwrites a cell; `structuredClone` appends fresh
cells. -/

/-- A primitive JS value held directly in a cell. -/
inductive JPrim where
  | pnull
  | pbool (b : Bool)
  | pnum (q : ℚ)
  | pstr (s : String)
  deriving DecidableEq, Repr

/-- One heap cell. -/
inductive HNode where
  | prim (p : JPrim)
  | arr (elems : List Nat)
  | obj (fields : List (String × Nat))
  deriving DecidableEq, Repr

/-- The heap: cells addressed by list position; allocation appends. -/
abbrev Heap : Type := List HNode

/-- Addresses a cell refers to. -/
def HNode.children : HNode → List Nat
  | .prim _ => []
  | .arr elems => elems
  | .obj fields => fields.map (fun kv => kv.2)

/-- A JS reference or primitive, as held in a variable. -/
inductive HVal where
  | prim (p : JPrim)
  | ref (a : Nat)
  deriving DecidableEq, Repr

/-- Clone a list of addresses in order, threading the heap, given the
single-address cloner for the current fuel level. -/
def cloneManyAux (cl : Heap → Nat → Option (Heap × Nat)) :
    List Nat → Heap → Option (Heap × List Nat)
  | [], h => some (h, [])
  | a :: rest, h =>
    match cl h a with
    | none => none
    | some (h1, a') =>
      match cloneManyAux cl rest h1 with
      | some (h2, rest') => some (h2, a' :: rest')
      | none => none

/-- Model of `structuredClone` from one address: recursively copy the reachable
graph into fresh cells (fuel-bounded; the data cloned by the claims is
finite and acyclic, so enough fuel always exists). -/
def cloneAddr : Nat → Heap → Nat → Option (Heap × Nat)
  | 0, _, _ => none
  | fuel + 1, h, a =>
    match h.get? a with
    | none => none
    | some (.prim p) => some (h ++ [.prim p], h.length)
    | some (.arr elems) =>
      match cloneManyAux (cloneAddr fuel) elems h with
      | some (h1, elems') => some (h1 ++ [.arr elems'], h1.length)
      | none => none
    | some (.obj fields) =>
      match cloneManyAux (cloneAddr fuel) (fields.map (fun kv => kv.2)) h with
      | some (h1, vals') =>
        some (h1 ++ [.obj (List.zip (fields.map (fun kv => kv.1)) vals')], h1.length)
      | none => none

/-- Model of `deepClone(data)`: the fast path returns primitives unchanged;
references go through `structuredClone`. -/
def deepClone (fuel : Nat) (h : Heap) : HVal → Option (Heap × HVal)
  | .prim p => some (h, .prim p)
  | .ref a => (cloneAddr fuel h a).map (fun p => (p.1, .ref p.2))

/-- The pure value tree read out of the heap (what the snapshot's data
denotes to an observer). -/
inductive DTree where
  | prim (p : JPrim)
  | arr (ts : List DTree)
  | obj (fs : List (String × DTree))

/-- Read a list of addresses, given the single-address readout. -/
def readManyAux (rd : Nat → Option DTree) : List Nat → Option (List DTree)
  | [] => some []
  | a :: rest =>
    match rd a with
    | none => none
    | some t => (readManyAux rd rest).map (fun ts => t :: ts)

/-- Read the value tree rooted at an address (fuel-bounded). -/
def readoutAddr : Nat → Heap → Nat → Option DTree
  | 0, _, _ => none
  | g + 1, h, a =>
    match h.get? a with
    | none => none
    | some (.prim p) => some (.prim p)
    | some (.arr elems) =>
      (readManyAux (readoutAddr g h) elems).map (fun ts => .arr ts)
    | some (.obj fields) =>
      match readManyAux (readoutAddr g h) (fields.map (fun kv => kv.2)) with
      | some ts => some (.obj (List.zip (fields.map (fun kv => kv.1)) ts))
      | none => none

/-- Read the value of a variable. -/
def readoutVal (g : Nat) (h : Heap) : HVal → Option DTree
  | .prim p => some (.prim p)
  | .ref a => readoutAddr g h a

/-- In-place mutation of the cell at address `b`. -/
def writeCell (h : Heap) (b : Nat) (v : HNode) : Heap := h.set b v

/-- The cells of `h` at and above `n` only refer to addresses at or above
`n` (the freshly cloned region is closed in this sense). -/
def RegionClosed (h : Heap) (n : Nat) : Prop :=
  ∀ a node, n ≤ a → h.get? a = some node → ∀ c ∈ node.children, n ≤ c

/-- A demonstration heap: cell 1 is the array `[cell 0]`, cell 0 a
primitive (the live object to be snapshotted). -/
def cloneDemoHeap : Heap := [.prim (.pbool true), .arr [0]]

/-- The heap after cloning cell 1 of `cloneDemoHeap`: the clone occupies
cells 2 and 3. -/
def cloneDemoHeapAfter : Heap :=
  [.prim (.pbool true), .arr [0], .prim (.pbool true), .arr [2]]


/-! ## Theorems -/

/-- Claim C1: the spec's scenario says a dispatch whose inference
capability always answers the non-JSON text `"not json"` with
`maxRetries = 3` ends with the lifecycle machine in `REJECTED` after
exactly 3 inference calls.  Evaluating the dispatch shows the call count
is indeed exactly 3, but the machine ends in `VALIDATING`: the hook emits
`RETRY` while in `GENERATING` and `MAX_RETRIES` while in `VALIDATING`,
and neither pair is in `TRANSITIONS`, so both are logged no-ops and
`REJECTED` is never reached. -/
theorem dispatch_exhausted_retries_not_rejected :
    exhaustedRetriesRun.inferLog.length = 3 ∧
    exhaustedRetriesRun.machineState = .VALIDATING ∧
    exhaustedRetriesRun.machineState ≠ .REJECTED := by
  refine ⟨by decide, by decide, by decide⟩

/-- Claim C2 counterexample: the claim states
`isDestructiveChange({items:[1,2,3]}, {items:[]})` is `true`, but the
code returns `false`: the serialised previous state is 17 characters,
below the 50-character floor of the size heuristic, and the two states
are objects, not arrays, so the array-emptiness branch does not apply. -/
theorem isDestructiveChange_wrapped_array_not_flagged :
    ¬ (isDestructiveChange
        (.obj (.ofList [("items", .arr (.ofList [.num 1, .num 2, .num 3]))]))
        (.obj (.ofList [("items", .arr .nil)])) = true) := by
  decide

/-- Claim C2 amended: both invocations return `false` —
`isDestructiveChange({items:[1,2,3]}, {items:[]})` is `false` (the size
heuristic needs a previous serialisation longer than 50 characters and
the array-emptiness test applies only to top-level arrays), and
`isDestructiveChange({items:[1]}, {items:[1,2,3]})` is `false` as the
claim states. -/
theorem isDestructiveChange_on_wrapped_arrays :
    isDestructiveChange
      (.obj (.ofList [("items", .arr (.ofList [.num 1, .num 2, .num 3]))]))
      (.obj (.ofList [("items", .arr .nil)])) = false ∧
    isDestructiveChange
      (.obj (.ofList [("items", .arr (.ofList [.num 1]))]))
      (.obj (.ofList [("items", .arr (.ofList [.num 1, .num 2, .num 3]))])) = false := by
  exact ⟨by decide, by decide⟩

/-- Claim C3: the spec says every dispatch begins by snapshotting the
current state through the rollback manager, labelled with the intent.
The dispatch of `useSemanticState` constructs no `RollbackManager` and
contains no `snapshot` call, so a full dispatch (here the exhausted-retry
scenario, which runs beginning to end) performs zero snapshot calls while
making its three inference calls. -/
theorem dispatch_takes_no_snapshot :
    exhaustedRetriesRun.snapshotCalls = [] ∧
    exhaustedRetriesRun.inferLog.length = 3 := by
  exact ⟨rfl, by decide⟩

/-! ### Rollback history bounds (claims C7 and C10) -/

/-- The trim loop drops exactly the front overshoot. -/
theorem trimFrontAux_eq_drop {α : Type} :
    ∀ (fuel maxSnapshots : Nat) (l : List α), l.length ≤ fuel →
      trimFrontAux fuel maxSnapshots l = l.drop (l.length - maxSnapshots) := by
  intro fuel
  induction fuel with
  | zero =>
    intro maxSnapshots l hl
    have : l = [] := List.eq_nil_of_length_eq_zero (Nat.le_zero.mp hl)
    subst this
    simp [trimFrontAux]
  | succ f ih =>
    intro maxSnapshots l hl
    rw [trimFrontAux]
    by_cases hgt : l.length > maxSnapshots
    · rw [if_pos hgt]
      match l with
      | [] => simp at hgt
      | x :: t =>
        have ht : t.length ≤ f := by simp at hl; omega
        rw [List.tail_cons, ih maxSnapshots t ht]
        have hlen : (x :: t).length - maxSnapshots = (t.length - maxSnapshots) + 1 := by
          simp at hgt ⊢; omega
        rw [hlen, List.drop_succ_cons]
    · rw [if_neg hgt]
      have : l.length - maxSnapshots = 0 := by omega
      rw [this, List.drop_zero]

/-- The trim loop in closed form. -/
theorem trimFront_eq_drop {α : Type} (maxSnapshots : Nat) (l : List α) :
    trimFront maxSnapshots l = l.drop (l.length - maxSnapshots) :=
  trimFrontAux_eq_drop l.length maxSnapshots l le_rfl

/-- Dropping within the first component of an append. -/
theorem drop_append_of_le {α : Type} (n : Nat) (l r : List α) (h : n ≤ l.length) :
    (l ++ r).drop n = l.drop n ++ r := by
  rw [List.drop_append_eq_append_drop, show n - l.length = 0 by omega, List.drop_zero]

/-- The effect of one `snapshot` call on the retained data. -/
theorem snapshot_data_eq {T : Type} (m : RollbackManager T) (d : T) (i : String) :
    (m.snapshot d i).1.snapshots.map (fun s => s.data) =
      (m.snapshots.map (fun s => s.data) ++ [d]).drop
        (m.snapshots.length + 1 - m.maxSnapshots) ∧
    (m.snapshot d i).1.snapshots.length = min (m.snapshots.length + 1) m.maxSnapshots ∧
    (m.snapshot d i).1.maxSnapshots = m.maxSnapshots := by
  have hsnaps : (m.snapshot d i).1.snapshots =
      (m.snapshots ++ [m.pushedSnapshot d i]).drop
        (m.snapshots.length + 1 - m.maxSnapshots) := by
    show trimFront m.maxSnapshots _ = _
    rw [trimFront_eq_drop]
    simp
  refine ⟨?_, ?_, rfl⟩
  · rw [hsnaps, List.map_drop, List.map_append]
    simp [RollbackManager.pushedSnapshot]
  · rw [hsnaps, List.length_drop]
    simp
    omega

/-- Invariant of a run of `snapshot` calls: starting from a manager whose
history is within bounds, the retained data is the tail of all data ever
pushed, and the length is capped at the maximum. -/
theorem applySnapshots_invariant {T : Type} :
    ∀ (inserts : List (T × String)) (m : RollbackManager T),
      m.snapshots.length ≤ m.maxSnapshots →
      (applySnapshots m inserts).snapshots.map (fun s => s.data) =
        ((m.snapshots.map (fun s => s.data)) ++ inserts.map Prod.fst).drop
          (m.snapshots.length + inserts.length - m.maxSnapshots) ∧
      (applySnapshots m inserts).snapshots.length =
        min (m.snapshots.length + inserts.length) m.maxSnapshots := by
  intro inserts
  induction inserts with
  | nil =>
    intro m hm
    constructor
    · rw [show m.snapshots.length + List.length [] - m.maxSnapshots = 0 by simp; omega]
      simp [applySnapshots]
    · simp [applySnapshots]
      omega
  | cons p rest ih =>
    intro m hm
    obtain ⟨d, i⟩ := p
    have happ : applySnapshots m ((d, i) :: rest) = applySnapshots (m.snapshot d i).1 rest := rfl
    obtain ⟨hmap1, hlen1, hmax1⟩ := snapshot_data_eq m d i
    have hbound : (m.snapshot d i).1.snapshots.length ≤ (m.snapshot d i).1.maxSnapshots := by
      rw [hlen1, hmax1]
      omega
    obtain ⟨ihmap, ihlen⟩ := ih (m.snapshot d i).1 hbound
    have hXlen : (m.snapshots.map (fun s => s.data) ++ [d]).length = m.snapshots.length + 1 := by
      simp
    constructor
    · rw [happ, ihmap, hmap1, hmax1, hlen1]
      rw [← drop_append_of_le (m.snapshots.length + 1 - m.maxSnapshots)
            (m.snapshots.map (fun s => s.data) ++ [d]) (rest.map Prod.fst)
            (by rw [hXlen]; omega)]
      rw [List.drop_drop, List.append_assoc, List.singleton_append]
      have hidx : m.snapshots.length + 1 - m.maxSnapshots +
          (min (m.snapshots.length + 1) m.maxSnapshots + rest.length - m.maxSnapshots) =
          m.snapshots.length + ((d, i) :: rest).length - m.maxSnapshots := by
        simp
        omega
      rw [hidx]
      rfl
    · rw [happ, ihlen, hmax1, hlen1]
      simp
      omega

/-- Claim C7: for every `maxSnapshots` configuration and every sequence
of `snapshot` calls on a fresh manager, the retained history never
exceeds `maxSnapshots` entries, and the retained data is exactly the most
recent `min(#inserts, maxSnapshots)` pushed values, evicted from the
oldest end (the front drop of the full insertion sequence). -/
theorem rollbackManager_bounded_history (T : Type) (maxSnapshots : Nat)
    (inserts : List (T × String)) :
    (applySnapshots (freshManager T maxSnapshots) inserts).snapshots.length ≤ maxSnapshots ∧
    (applySnapshots (freshManager T maxSnapshots) inserts).snapshots.length =
      min inserts.length maxSnapshots ∧
    (applySnapshots (freshManager T maxSnapshots) inserts).snapshots.map (fun s => s.data) =
      (inserts.map Prod.fst).drop (inserts.length - maxSnapshots) := by
  obtain ⟨hmap, hlen⟩ :=
    applySnapshots_invariant inserts (freshManager T maxSnapshots) (by simp [freshManager])
  refine ⟨?_, ?_, ?_⟩
  · rw [hlen]; simp [freshManager]
  · rw [hlen]; simp [freshManager]
  · rw [hmap]; simp [freshManager]

/-- Claim C10: the exposed `availableRollbacks` equals
`max(0, #retained - 1)` where the retained count after any insertion
sequence on a fresh manager is `min(#inserts, maxSnapshots)`; in
particular a single snapshot yields a count of 0 (the newest snapshot is
not itself a rollback target). -/
theorem availableRollbacks_counts_past_snapshots (T : Type) (maxSnapshots : Nat)
    (inserts : List (T × String)) :
    (applySnapshots (freshManager T maxSnapshots) inserts).availableRollbacks =
      max 0 ((min inserts.length maxSnapshots : Int) - 1) ∧
    (∀ (d : T) (i : String),
      ((freshManager T maxSnapshots).snapshot d i).1.availableRollbacks = 0) := by
  constructor
  · obtain ⟨-, hlen, -⟩ := rollbackManager_bounded_history T maxSnapshots inserts
    show max 0 (((applySnapshots (freshManager T maxSnapshots) inserts).snapshots.length : Int) - 1)
        = _
    rw [hlen]
    push_cast
    rfl
  · intro d i
    obtain ⟨-, hlen, -⟩ := rollbackManager_bounded_history T maxSnapshots [(d, i)]
    show max 0 ((((freshManager T maxSnapshots).snapshot d i).1.snapshots.length : Int) - 1) = 0
    have : ((freshManager T maxSnapshots).snapshot d i).1 =
        applySnapshots (freshManager T maxSnapshots) [(d, i)] := rfl
    rw [this, hlen]
    rcases Nat.eq_zero_or_pos maxSnapshots with h0 | hpos
    · subst h0; simp
    · have : min ([(d, i)] : List (T × String)).length maxSnapshots = 1 := by
        simp; omega
      rw [this]; simp

/-! ### Validation pipeline failure semantics (claim C6) -/

/-- Trimming yields a sublist. -/
theorem jsTrim_sublist (l : List Char) : (jsTrim l).Sublist l := by
  unfold jsTrim
  have h1 : (l.dropWhile jsWhitespace).rdropWhile jsWhitespace <+: l.dropWhile jsWhitespace :=
    List.rdropWhile_prefix _ _
  exact h1.sublist.trans (List.dropWhile_suffix jsWhitespace).sublist

/-- The capture-start position is a sublist of the input. -/
theorem fenceRemainder_sublist (l : List Char) (i : Nat) :
    (fenceRemainder l i).Sublist l := by
  unfold fenceRemainder
  refine (List.dropWhile_suffix jsWhitespace).sublist.trans ?_
  split
  · exact (List.drop_sublist _ _).trans (List.drop_sublist _ _)
  · exact List.drop_sublist _ _

/-- The code-fence step yields a sublist of the input. -/
theorem codeBlockExtract_sublist (l : List Char) : (codeBlockExtract l).Sublist l := by
  unfold codeBlockExtract
  split
  · exact List.Sublist.refl l
  · split
    · exact List.Sublist.refl l
    · exact (jsTrim_sublist _).trans
        ((List.take_sublist _ _).trans (fenceRemainder_sublist _ _))

/-- A successful `firstIdxP` points at a character satisfying `p`. -/
theorem firstIdxP_spec (p : Char → Bool) :
    ∀ (l : List Char) (i : Nat), firstIdxP p l = some i →
      ∃ h : i < l.length, p (l.get ⟨i, h⟩) = true := by
  intro l
  induction l with
  | nil => intro i h; simp [firstIdxP] at h
  | cons c t ih =>
    intro i h
    rw [firstIdxP] at h
    by_cases hc : p c
    · rw [if_pos hc] at h
      cases h
      exact ⟨Nat.succ_pos _, hc⟩
    · rw [if_neg hc] at h
      cases hft : firstIdxP p t with
      | none => rw [hft] at h; simp at h
      | some j =>
        rw [hft] at h
        simp at h
        subst h
        obtain ⟨hj, hp⟩ := ih j hft
        exact ⟨Nat.succ_lt_succ hj, hp⟩

/-- A successful `lastIdxP` points at a character satisfying `p`. -/
theorem lastIdxP_spec (p : Char → Bool) :
    ∀ (l : List Char) (i : Nat), lastIdxP p l = some i →
      ∃ h : i < l.length, p (l.get ⟨i, h⟩) = true := by
  intro l
  induction l with
  | nil => intro i h; rw [lastIdxP] at h; exact Option.noConfusion h
  | cons c t ih =>
    intro i h
    rw [lastIdxP] at h
    cases hlt : lastIdxP p t with
    | some j =>
      rw [hlt] at h
      cases h
      obtain ⟨hj, hp⟩ := ih j hlt
      exact ⟨Nat.succ_lt_succ hj, hp⟩
    | none =>
      rw [hlt] at h
      by_cases hc : p c
      · rw [if_pos hc] at h
        cases h
        exact ⟨Nat.succ_pos _, hc⟩
      · rw [if_neg hc] at h
        simp at h

/-- The maximum of two optional indices is one of them. -/
theorem optMax_spec (a b : Option Nat) (e : Nat) (h : optMax a b = some e) :
    a = some e ∨ b = some e := by
  match a, b with
  | none, b => exact .inr h
  | some x, none => exact .inl h
  | some x, some y =>
    simp only [optMax] at h
    cases h
    rcases Nat.le_total x y with hxy | hxy
    · exact .inr (by rw [Nat.max_eq_right hxy])
    · exact .inl (by rw [Nat.max_eq_left hxy])

/-- On boundary-free text the boundary slice is empty. -/
theorem boundarySlice_eq_nil_of_noBoundaries (t : List Char)
    (hb : NoPayloadBoundaries t) : boundarySlice t = [] := by
  unfold boundarySlice
  cases hs : firstIdxP isOpenCh t with
  | none => rfl
  | some s =>
    cases he : optMax (lastIdxP (fun c => c == ']') t)
        (lastIdxP (fun c => c == closeBraceChar) t) with
    | none => rfl
    | some e =>
      show (if s < e then (t.take (e + 1)).drop s else []) = []
      by_cases hse : s < e
      · exfalso
        obtain ⟨hslen, hps⟩ := firstIdxP_spec isOpenCh t s hs
        have hclose : ∃ h : e < t.length, isCloseCh (t.get ⟨e, h⟩) = true := by
          rcases optMax_spec _ _ _ he with h' | h'
          · obtain ⟨helen, hp⟩ := lastIdxP_spec _ t e h'
            exact ⟨helen, by simp only [isCloseCh, hp, Bool.true_or]⟩
          · obtain ⟨helen, hp⟩ := lastIdxP_spec _ t e h'
            exact ⟨helen, by simp only [isCloseCh, hp, Bool.or_true]⟩
        obtain ⟨helen, hpc⟩ := hclose
        exact List.pairwise_iff_getElem.mp hb s e hslen helen hse hps hpc
      · rw [if_neg hse]

/-- On boundary-free responses `extractJson` returns the empty string
(the recoverable no-payload condition). -/
theorem extractJson_eq_empty_of_noBoundaries (r : String)
    (hb : NoPayloadBoundaries r.toList) : extractJson r = "" := by
  unfold extractJson
  by_cases hr : r = ""
  · rw [if_pos hr]
  · rw [if_neg hr]
    have hsub : (codeBlockExtract (jsTrim r.toList)).Sublist r.toList :=
      (codeBlockExtract_sublist _).trans (jsTrim_sublist _)
    have hb' : NoPayloadBoundaries (codeBlockExtract (jsTrim r.toList)) :=
      List.Pairwise.sublist hsub hb
    rw [boundarySlice_eq_nil_of_noBoundaries _ hb']

/-- Claim C6: the validation pipeline never throws — it is a total
function whose every failure carries at least one `ValidationError` — and
on any response text with no `[`/`{` … `]`/`}` boundaries,
`extractJson` returns `""` and `validateResponse` fails with exactly one
error whose message reports that no JSON was found. -/
theorem validateResponse_total_and_missing_payload {T : Type}
    (response : String) (schema : SchemaModel T) :
    ((validateResponse response schema).success = false →
      (validateResponse response schema).errors ≠ []) ∧
    (NoPayloadBoundaries response.toList →
      extractJson response = "" ∧
      validateResponse response schema =
        ⟨false, none,
          [⟨"", "No JSON found in response", "JSON object or array",
            jsSliceStr response 0 100 ++ "..."⟩], ""⟩) := by
  constructor
  · intro hfail
    by_cases hjs : extractJson response = ""
    · simp [validateResponse, hjs]
    · cases hp : parseJson (extractJson response) with
      | none => simp [validateResponse, hjs, hp]
      | some v =>
        cases hsp : schema.safeParse v with
        | ok d =>
          exfalso
          revert hfail
          simp [validateResponse, hjs, hp, validateAgainstSchema, hsp]
        | fail e es =>
          simp [validateResponse, hjs, hp, validateAgainstSchema, hsp]
  · intro hb
    have he := extractJson_eq_empty_of_noBoundaries response hb
    refine ⟨he, ?_⟩
    simp [validateResponse, he]

/-- Witness for claim C6 at the concrete refusal text
`"I cannot generate JSON."`: it is boundary-free, extraction yields the
empty string, and validation fails with a non-empty error list. -/
theorem validateResponse_missing_payload_witness :
    NoPayloadBoundaries ("I cannot generate JSON." : String).toList ∧
    extractJson "I cannot generate JSON." = "" ∧
    (validateResponse "I cannot generate JSON." anySchema).errors ≠ [] := by
  have hb : NoPayloadBoundaries ("I cannot generate JSON." : String).toList := by decide
  have h := validateResponse_total_and_missing_payload "I cannot generate JSON." anySchema
  refine ⟨hb, (h.2 hb).1, h.1 ?_⟩
  rw [(h.2 hb).2]

/-! ### Self-correction loop bounds (claims C4 and C5) -/

/-- The `getLast?` of an append with a non-empty right part. -/
theorem getLast?_append_right {α : Type} (l r : List α) (hr : r ≠ []) :
    (l ++ r).getLast? = r.getLast? :=
  List.getLast?_append_of_ne_nil l hr

/-- When every response fails validation, the loop runs its full fuel:
one inference call and one attempt record per iteration, ending in
failure with `data = none`. -/
theorem execAux_all_invalid {T σ : Type} (schema : SchemaModel T)
    (infer : Nat → String → String) (originalPrompt : String)
    (onRetry : Nat → List ValidationError → σ → σ)
    (hfail : ∀ n p, (validateResponse (infer n p) schema).success = false) :
    ∀ (fuel attempts : Nat) (currentPrompt : String)
      (history : List AttemptRecord) (callLog : List String) (st : σ),
      ∃ recs resps st',
        execAux schema infer originalPrompt onRetry fuel attempts currentPrompt
            history callLog st =
          (⟨false, none, attempts + fuel, history ++ recs⟩, callLog ++ resps, st') ∧
        recs.length = fuel ∧ resps.length = fuel := by
  intro fuel
  induction fuel with
  | zero =>
    intro attempts currentPrompt history callLog st
    exact ⟨[], [], st, by simp [execAux], rfl, rfl⟩
  | succ f ih =>
    intro attempts currentPrompt history callLog st
    rw [execAux]
    rw [if_neg (by rw [hfail]; exact Bool.false_ne_true)]
    by_cases hf : f = 0
    · subst hf
      rw [if_pos rfl]
      exact ⟨[⟨infer (attempts + 1) currentPrompt,
          (validateResponse (infer (attempts + 1) currentPrompt) schema).errors,
          currentPrompt⟩],
        [infer (attempts + 1) currentPrompt], st, rfl, rfl, rfl⟩
    · rw [if_neg hf]
      obtain ⟨recs, resps, st', heq, hlr, hls⟩ := ih (attempts + 1)
        (buildCorrectionPrompt originalPrompt (infer (attempts + 1) currentPrompt)
          (validateResponse (infer (attempts + 1) currentPrompt) schema).errors)
        (history ++ [⟨infer (attempts + 1) currentPrompt,
          (validateResponse (infer (attempts + 1) currentPrompt) schema).errors,
          currentPrompt⟩])
        (callLog ++ [infer (attempts + 1) currentPrompt])
        (onRetry (attempts + 1)
          (validateResponse (infer (attempts + 1) currentPrompt) schema).errors st)
      refine ⟨⟨infer (attempts + 1) currentPrompt,
          (validateResponse (infer (attempts + 1) currentPrompt) schema).errors,
          currentPrompt⟩ :: recs,
        infer (attempts + 1) currentPrompt :: resps, st', ?_, ?_, ?_⟩
      · rw [heq]
        have harith : attempts + 1 + f = attempts + (f + 1) := by omega
        rw [harith, List.append_assoc, List.append_assoc]
        rfl
      · simp [hlr]
      · simp [hls]

/-- Claim C4: for every `maxRetries` and every inference capability whose
responses all fail validation, `executeWithCorrection` makes at most
`maxRetries` inference calls (witnessed by the call log), returns failure
with `data = null`, and the attempt history holds exactly one record per
inference call made. -/
theorem executeWithCorrection_bounded_on_invalid {T σ : Type}
    (schema : SchemaModel T) (infer : Nat → String → String) (prompt : String)
    (maxRetries : Nat) (onRetry : Nat → List ValidationError → σ → σ) (st : σ)
    (hfail : ∀ n p, (validateResponse (infer n p) schema).success = false) :
    (executeWithCorrection schema infer prompt maxRetries onRetry st).1.success = false ∧
    (executeWithCorrection schema infer prompt maxRetries onRetry st).1.data = none ∧
    (executeWithCorrection schema infer prompt maxRetries onRetry st).2.1.length ≤ maxRetries ∧
    (executeWithCorrection schema infer prompt maxRetries onRetry st).1.history.length =
      (executeWithCorrection schema infer prompt maxRetries onRetry st).2.1.length := by
  obtain ⟨recs, resps, st', heq, hlr, hls⟩ :=
    execAux_all_invalid schema infer prompt onRetry hfail maxRetries 0 prompt [] [] st
  rw [show executeWithCorrection schema infer prompt maxRetries onRetry st =
    execAux schema infer prompt onRetry maxRetries 0 prompt [] [] st from rfl, heq]
  simp [hlr, hls]

/-- Witness for claim C4: two retries against an inference capability
that always answers `"not json"`. -/
theorem executeWithCorrection_bounded_on_invalid_witness :
    (∀ n p, (validateResponse ((fun (_ : Nat) (_ : String) => "not json") n p)
      anySchema).success = false) ∧
    (executeWithCorrection anySchema (fun _ _ => "not json") "PROMPT" 2
      (fun _ _ (st : Unit) => st) ()).1.success = false ∧
    (executeWithCorrection anySchema (fun _ _ => "not json") "PROMPT" 2
      (fun _ _ (st : Unit) => st) ()).1.data = none ∧
    (executeWithCorrection anySchema (fun _ _ => "not json") "PROMPT" 2
      (fun _ _ (st : Unit) => st) ()).2.1.length ≤ 2 := by
  have hfail : ∀ n p, (validateResponse ((fun (_ : Nat) (_ : String) => "not json") n p)
      anySchema).success = false := by
    intro n p
    show (validateResponse "not json" anySchema).success = false
    decide
  have h := executeWithCorrection_bounded_on_invalid anySchema (fun _ _ => "not json")
    "PROMPT" 2 (fun _ _ (st : Unit) => st) () hfail
  exact ⟨hfail, h.1, h.2.1, h.2.2.1⟩

/-- When the first `k'` responses fail and the `(k'+1)`-th validates, the
loop stops right there: success, attempt count `attempts + k' + 1`, one
record and one call per attempt, and the data of the last (validated)
response. -/
theorem execAux_first_valid {T σ : Type} (schema : SchemaModel T)
    (infer : Nat → String → String) (originalPrompt : String)
    (onRetry : Nat → List ValidationError → σ → σ) :
    ∀ (k' fuel attempts : Nat) (currentPrompt : String)
      (history : List AttemptRecord) (callLog : List String) (st : σ),
      k' + 1 ≤ fuel →
      (∀ n p, attempts < n → n < attempts + (k' + 1) →
        (validateResponse (infer n p) schema).success = false) →
      (∀ p, (validateResponse (infer (attempts + (k' + 1)) p) schema).success = true) →
      ∃ recs resps st' lastRec,
        execAux schema infer originalPrompt onRetry fuel attempts currentPrompt
            history callLog st =
          (⟨true, (validateResponse lastRec.response schema).data,
              attempts + (k' + 1), history ++ recs⟩, callLog ++ resps, st') ∧
        recs.length = k' + 1 ∧ resps.length = k' + 1 ∧ recs.getLast? = some lastRec := by
  intro k'
  induction k' with
  | zero =>
    intro fuel attempts currentPrompt history callLog st hfuel hfailpre hvalid
    match fuel, hfuel with
    | f + 1, _ =>
      rw [execAux]
      rw [if_pos (hvalid currentPrompt)]
      exact ⟨[⟨infer (attempts + 1) currentPrompt,
          (validateResponse (infer (attempts + 1) currentPrompt) schema).errors,
          currentPrompt⟩],
        [infer (attempts + 1) currentPrompt], st,
        ⟨infer (attempts + 1) currentPrompt,
          (validateResponse (infer (attempts + 1) currentPrompt) schema).errors,
          currentPrompt⟩, rfl, rfl, rfl, rfl⟩
  | succ k ih =>
    intro fuel attempts currentPrompt history callLog st hfuel hfailpre hvalid
    match fuel, hfuel with
    | f + 1, hfuel =>
      rw [execAux]
      rw [if_neg (by
        rw [hfailpre (attempts + 1) currentPrompt (by omega) (by omega)]
        exact Bool.false_ne_true)]
      rw [if_neg (by omega : ¬ f = 0)]
      obtain ⟨recs, resps, st', lastRec, heq, hlr, hls, hlast⟩ := ih f (attempts + 1)
        (buildCorrectionPrompt originalPrompt (infer (attempts + 1) currentPrompt)
          (validateResponse (infer (attempts + 1) currentPrompt) schema).errors)
        (history ++ [⟨infer (attempts + 1) currentPrompt,
          (validateResponse (infer (attempts + 1) currentPrompt) schema).errors,
          currentPrompt⟩])
        (callLog ++ [infer (attempts + 1) currentPrompt])
        (onRetry (attempts + 1)
          (validateResponse (infer (attempts + 1) currentPrompt) schema).errors st)
        (by omega)
        (by intro n p h1 h2; exact hfailpre n p (by omega) (by omega))
        (by intro p
            have : attempts + 1 + (k + 1) = attempts + (k + 1 + 1) := by omega
            rw [this]
            exact hvalid p)
      refine ⟨⟨infer (attempts + 1) currentPrompt,
          (validateResponse (infer (attempts + 1) currentPrompt) schema).errors,
          currentPrompt⟩ :: recs,
        infer (attempts + 1) currentPrompt :: resps, st', lastRec, ?_, ?_, ?_, ?_⟩
      · rw [heq]
        have harith : attempts + 1 + (k + 1) = attempts + (k + 1 + 1) := by omega
        rw [harith, List.append_assoc, List.append_assoc]
        rfl
      · simp [hlr]
      · simp [hls]
      · rw [show (⟨infer (attempts + 1) currentPrompt,
            (validateResponse (infer (attempts + 1) currentPrompt) schema).errors,
            currentPrompt⟩ :: recs : List AttemptRecord) = [⟨_, _, _⟩] ++ recs from rfl]
        rw [getLast?_append_right _ recs (by
          intro hnil
          rw [hnil] at hlr
          simp at hlr)]
        exact hlast

/-- Claim C5: if the `k`-th response (`1 ≤ k ≤ maxRetries`) is the first
to pass validation, `executeWithCorrection` returns success with attempt
count `k`, exactly `k` inference calls (none after the `k`-th), `k`
attempt records, and the validated data of that `k`-th response. -/
theorem executeWithCorrection_stops_on_first_valid {T σ : Type}
    (schema : SchemaModel T) (infer : Nat → String → String) (prompt : String)
    (maxRetries k : Nat) (onRetry : Nat → List ValidationError → σ → σ) (st : σ)
    (hk1 : 1 ≤ k) (hkm : k ≤ maxRetries)
    (hfail : ∀ n p, 1 ≤ n → n < k →
      (validateResponse (infer n p) schema).success = false)
    (hvalid : ∀ p, (validateResponse (infer k p) schema).success = true) :
    (executeWithCorrection schema infer prompt maxRetries onRetry st).1.success = true ∧
    (executeWithCorrection schema infer prompt maxRetries onRetry st).1.attempts = k ∧
    (executeWithCorrection schema infer prompt maxRetries onRetry st).2.1.length = k ∧
    (executeWithCorrection schema infer prompt maxRetries onRetry st).1.history.length = k ∧
    ∃ lastRec,
      (executeWithCorrection schema infer prompt maxRetries onRetry st).1.history.getLast? =
        some lastRec ∧
      (executeWithCorrection schema infer prompt maxRetries onRetry st).1.data =
        (validateResponse lastRec.response schema).data := by
  obtain ⟨k', rfl⟩ : ∃ k', k = k' + 1 := ⟨k - 1, by omega⟩
  obtain ⟨recs, resps, st', lastRec, heq, hlr, hls, hlast⟩ :=
    execAux_first_valid schema infer prompt onRetry k' maxRetries 0 prompt [] [] st
      (by omega)
      (by intro n p h1 h2; exact hfail n p (by omega) (by omega))
      (by intro p; rw [Nat.zero_add]; exact hvalid p)
  rw [Nat.zero_add] at heq
  rw [show executeWithCorrection schema infer prompt maxRetries onRetry st =
    execAux schema infer prompt onRetry maxRetries 0 prompt [] [] st from rfl, heq]
  refine ⟨rfl, rfl, by simp [hls], by simp [hlr], lastRec, ?_, rfl⟩
  simp only [List.nil_append]
  exact hlast

/-- Witness for claim C5: the second of three allowed attempts is the
first to validate (`"not json"` then `"[]"`). -/
theorem executeWithCorrection_stops_on_first_valid_witness :
    (∀ n p, 1 ≤ n → n < 2 →
      (validateResponse ((fun (n : Nat) (_ : String) =>
        if 2 ≤ n then "[]" else "not json") n p) anySchema).success = false) ∧
    (∀ p, (validateResponse ((fun (n : Nat) (_ : String) =>
      if 2 ≤ n then "[]" else "not json") 2 p) anySchema).success = true) ∧
    (executeWithCorrection anySchema
      (fun n _ => if 2 ≤ n then "[]" else "not json") "PROMPT" 3
      (fun _ _ (st : Unit) => st) ()).1.success = true ∧
    (executeWithCorrection anySchema
      (fun n _ => if 2 ≤ n then "[]" else "not json") "PROMPT" 3
      (fun _ _ (st : Unit) => st) ()).1.attempts = 2 ∧
    (executeWithCorrection anySchema
      (fun n _ => if 2 ≤ n then "[]" else "not json") "PROMPT" 3
      (fun _ _ (st : Unit) => st) ()).2.1.length = 2 := by
  have hfail : ∀ n p, 1 ≤ n → n < 2 →
      (validateResponse ((fun (n : Nat) (_ : String) =>
        if 2 ≤ n then "[]" else "not json") n p) anySchema).success = false := by
    intro n p h1 h2
    have hn : n = 1 := by omega
    subst hn
    show (validateResponse "not json" anySchema).success = false
    decide
  have hvalid : ∀ p, (validateResponse ((fun (n : Nat) (_ : String) =>
      if 2 ≤ n then "[]" else "not json") 2 p) anySchema).success = true := by
    intro p
    show (validateResponse "[]" anySchema).success = true
    decide
  have h := executeWithCorrection_stops_on_first_valid anySchema
    (fun n _ => if 2 ≤ n then "[]" else "not json") "PROMPT" 3 2
    (fun _ _ (st : Unit) => st) () (by omega) (by omega) hfail hvalid
  exact ⟨hfail, hvalid, h.1, h.2.1, h.2.2.1⟩

/-! ### Confidence monotonicity (claim C9) -/

/-- Claim C9: holding the previous state, the intent and the
model-reported confidence fixed, `calculateConfidence` is monotonically
non-increasing in the structural-difference ratio of the serialised
states: a candidate new state with a smaller (or equal) difference ratio
receives at least the confidence of one with a larger ratio. -/
theorem calculateConfidence_antitone_in_diffRatio
    (previousState : JValue) (intent : String) (modelConfidence : ℚ)
    (s1 s2 : JValue)
    (h : diffRatio (stringify previousState) (stringify s1) ≤
         diffRatio (stringify previousState) (stringify s2)) :
    calculateConfidence previousState s2 intent modelConfidence ≤
      calculateConfidence previousState s1 intent modelConfidence := by
  show max 0 (min 1 (modelConfidence * mkRat 2 5 +
      (1 - diffRatio (stringify previousState) (stringify s2)) * mkRat 3 10 +
      min 1 (mkRat intent.length 50) * mkRat 3 10)) ≤
    max 0 (min 1 (modelConfidence * mkRat 2 5 +
      (1 - diffRatio (stringify previousState) (stringify s1)) * mkRat 3 10 +
      min 1 (mkRat intent.length 50) * mkRat 3 10))
  have h30 : (0 : ℚ) ≤ mkRat 3 10 := by decide
  have hsub : (1 - diffRatio (stringify previousState) (stringify s2)) * mkRat 3 10 ≤
      (1 - diffRatio (stringify previousState) (stringify s1)) * mkRat 3 10 :=
    mul_le_mul_of_nonneg_right (sub_le_sub_left h 1) h30
  exact max_le_max le_rfl (min_le_min le_rfl (by linarith))

/-- Witness for claim C9: previous state `1`; the unchanged candidate has
difference ratio 0, the candidate `"xy"` ratio 1, and the confidence at
ratio 1 is bounded by the confidence at ratio 0. -/
theorem calculateConfidence_antitone_witness :
    (diffRatio (stringify (JValue.num (mkRat 1 1))) (stringify (JValue.num (mkRat 1 1))) ≤
      diffRatio (stringify (JValue.num (mkRat 1 1))) (stringify (JValue.str "xy"))) ∧
    (calculateConfidence (JValue.num (mkRat 1 1)) (JValue.str "xy") "intent" (mkRat 7 10) ≤
      calculateConfidence (JValue.num (mkRat 1 1)) (JValue.num (mkRat 1 1)) "intent"
        (mkRat 7 10)) := by
  have h : diffRatio (stringify (JValue.num (mkRat 1 1)))
        (stringify (JValue.num (mkRat 1 1))) ≤
      diffRatio (stringify (JValue.num (mkRat 1 1))) (stringify (JValue.str "xy")) :=
    of_decide_eq_true (by with_unfolding_all rfl)
  exact ⟨h, calculateConfidence_antitone_in_diffRatio _ "intent" _ _ _ h⟩

/-! ### Deep-clone frame property (claim C8) -/

/-- Appending a cell whose references stay in the region preserves
region-closure. -/
theorem regionClosed_append_cell (h : Heap) (n : Nat) (node : HNode)
    (hreg : RegionClosed h n) (hch : ∀ c ∈ node.children, n ≤ c) :
    RegionClosed (h ++ [node]) n := by
  intro x nd hx hget c hc
  rcases Nat.lt_or_ge x h.length with hlt | hge
  · rw [List.get?_append hlt] at hget
    exact hreg x nd hx hget c hc
  · rcases Nat.eq_or_lt_of_le hge with heq | hgt
    · subst heq
      rw [List.get?_concat_length] at hget
      cases hget
      exact hch c hc
    · have : (h ++ [node]).length ≤ x := by simp; omega
      rw [List.get?_eq_none.mpr this] at hget
      exact Option.noConfusion hget

/-- What a run of `cloneManyAux` guarantees, given the guarantee of the
element cloner: the heap only grows, the fresh addresses lie in the
region, region-closure is preserved, and one output address exists per
input address. -/
theorem cloneManyAux_region (cl : Heap → Nat → Option (Heap × Nat)) (n : Nat)
    (hcl : ∀ h a h' a', n ≤ h.length → RegionClosed h n → cl h a = some (h', a') →
      (∃ ext, h' = h ++ ext) ∧ n ≤ a' ∧ RegionClosed h' n) :
    ∀ (addrs : List Nat) (h h' : Heap) (addrs' : List Nat),
      n ≤ h.length → RegionClosed h n → cloneManyAux cl addrs h = some (h', addrs') →
      (∃ ext, h' = h ++ ext) ∧ (∀ c ∈ addrs', n ≤ c) ∧ RegionClosed h' n ∧
        addrs'.length = addrs.length := by
  intro addrs
  induction addrs with
  | nil =>
    intro h h' addrs' hn hreg hrun
    rw [cloneManyAux] at hrun
    cases hrun
    exact ⟨⟨[], by simp⟩, by simp, hreg, rfl⟩
  | cons a rest ih =>
    intro h h' addrs' hn hreg hrun
    rw [cloneManyAux] at hrun
    cases hcla : cl h a with
    | none => rw [hcla] at hrun; exact Option.noConfusion hrun
    | some p =>
      obtain ⟨h1, a'⟩ := p
      rw [hcla] at hrun
      obtain ⟨⟨ext1, hext1⟩, hna', hreg1⟩ := hcl h a h1 a' hn hreg hcla
      have hn1 : n ≤ h1.length := by rw [hext1]; simp; omega
      have hrun2 : (match cloneManyAux cl rest h1 with
          | some (h2, rest') => some (h2, a' :: rest')
          | none => none) = some (h', addrs') := hrun
      cases hrest : cloneManyAux cl rest h1 with
      | none => rw [hrest] at hrun2; exact Option.noConfusion hrun2
      | some q =>
        obtain ⟨h2, rest'⟩ := q
        rw [hrest] at hrun2
        injection hrun2 with hpair
        injection hpair with hh2 hl2
        subst hh2
        subst hl2
        obtain ⟨⟨ext2, hext2⟩, hrest'mem, hreg2, hlen⟩ := ih h1 h2 rest' hn1 hreg1 hrest
        refine ⟨⟨ext1 ++ ext2, by rw [hext2, hext1, List.append_assoc]⟩, ?_, hreg2, by simp [hlen]⟩
        intro c hc
        rcases List.mem_cons.mp hc with hceq | hcmem
        · subst hceq; exact hna'
        · exact hrest'mem c hcmem

/-- Helper: every pair in a zip's second projection comes from the second
list. -/
theorem zip_map_snd_eq {κ : Type} (ks : List κ) (vs : List Nat)
    (hlen : ks.length = vs.length) :
    (List.zip ks vs).map (fun kv => kv.2) = vs := by
  induction ks generalizing vs with
  | nil => cases vs with
    | nil => rfl
    | cons v t => simp at hlen
  | cons k kt ih =>
    cases vs with
    | nil => simp at hlen
    | cons v vt =>
      simp only [List.zip_cons_cons, List.map_cons]
      rw [ih vt (by simpa using hlen)]

/-- The region guarantee of `cloneAddr`: cloning from a heap whose region
`[n, length)` is closed extends the heap, allocates the result in the
region, and keeps the region closed. -/
theorem cloneAddr_region :
    ∀ (fuel : Nat) (h : Heap) (a : Nat) (h' : Heap) (a' : Nat) (n : Nat),
      n ≤ h.length → RegionClosed h n → cloneAddr fuel h a = some (h', a') →
      (∃ ext, h' = h ++ ext) ∧ n ≤ a' ∧ RegionClosed h' n := by
  intro fuel
  induction fuel with
  | zero => intro h a h' a' n _ _ hrun; exact Option.noConfusion hrun
  | succ f ih =>
    intro h a h' a' n hn hreg hrun
    rw [cloneAddr] at hrun
    cases hget : h.get? a with
    | none => rw [hget] at hrun; exact Option.noConfusion hrun
    | some node =>
      rw [hget] at hrun
      cases node with
      | prim p =>
        have hrun2 : (some (h ++ [HNode.prim p], h.length) : Option (Heap × Nat)) =
            some (h', a') := hrun
        cases hrun2
        refine ⟨⟨[.prim p], rfl⟩, hn, ?_⟩
        exact regionClosed_append_cell h n (.prim p) hreg (by intro c hc; simp [HNode.children] at hc)
      | arr elems =>
        have hrun2 : (match cloneManyAux (cloneAddr f) elems h with
            | some (h1, elems') => some (h1 ++ [HNode.arr elems'], h1.length)
            | none => none) = some (h', a') := hrun
        cases hmany : cloneManyAux (cloneAddr f) elems h with
        | none => rw [hmany] at hrun2; exact Option.noConfusion hrun2
        | some q =>
          obtain ⟨h1, elems'⟩ := q
          rw [hmany] at hrun2
          cases hrun2
          obtain ⟨⟨ext1, hext1⟩, hmem, hreg1, -⟩ :=
            cloneManyAux_region (cloneAddr f) n
              (fun hh aa hh' aa' hnn hrr hcc => ih hh aa hh' aa' n hnn hrr hcc)
              elems h h1 elems' hn hreg hmany
          have hn1 : n ≤ h1.length := by rw [hext1]; simp; omega
          refine ⟨⟨ext1 ++ [.arr elems'], by rw [hext1, List.append_assoc]⟩, hn1, ?_⟩
          exact regionClosed_append_cell h1 n (.arr elems') hreg1
            (by intro c hc; exact hmem c hc)
      | obj fields =>
        have hrun2 : (match cloneManyAux (cloneAddr f) (fields.map (fun kv => kv.2)) h with
            | some (h1, vals') =>
              some (h1 ++ [HNode.obj (List.zip (fields.map (fun kv => kv.1)) vals')],
                h1.length)
            | none => none) = some (h', a') := hrun
        cases hmany : cloneManyAux (cloneAddr f) (fields.map (fun kv => kv.2)) h with
        | none => rw [hmany] at hrun2; exact Option.noConfusion hrun2
        | some q =>
          obtain ⟨h1, vals'⟩ := q
          rw [hmany] at hrun2
          cases hrun2
          obtain ⟨⟨ext1, hext1⟩, hmem, hreg1, hlen⟩ :=
            cloneManyAux_region (cloneAddr f) n
              (fun hh aa hh' aa' hnn hrr hcc => ih hh aa hh' aa' n hnn hrr hcc)
              (fields.map (fun kv => kv.2)) h h1 vals' hn hreg hmany
          have hn1 : n ≤ h1.length := by rw [hext1]; simp; omega
          refine ⟨⟨ext1 ++ [.obj (List.zip (fields.map (fun kv => kv.1)) vals')],
            by rw [hext1, List.append_assoc]⟩, hn1, ?_⟩
          refine regionClosed_append_cell h1 n _ hreg1 ?_
          intro c hc
          have hzip : ((List.zip (fields.map (fun kv => kv.1)) vals')).map (fun kv => kv.2)
              = vals' := by
            refine zip_map_snd_eq _ _ ?_
            rw [hlen]
            simp
          rw [show (HNode.obj (List.zip (fields.map (fun kv => kv.1)) vals')).children
              = (List.zip (fields.map (fun kv => kv.1)) vals').map (fun kv => kv.2) from rfl,
            hzip] at hc
          exact hmem c hc

/-- Region-closure is vacuous at the heap's own length. -/
theorem regionClosed_at_length (h : Heap) : RegionClosed h h.length := by
  intro a node ha hget
  exfalso
  have : h.get? a = none := List.get?_eq_none.mpr ha
  rw [this] at hget
  exact Option.noConfusion hget

/-- Congruence of `readManyAux` in the readout function. -/
theorem readManyAux_congr (rd1 rd2 : Nat → Option DTree) (addrs : List Nat)
    (h : ∀ a ∈ addrs, rd1 a = rd2 a) :
    readManyAux rd1 addrs = readManyAux rd2 addrs := by
  induction addrs with
  | nil => rfl
  | cons a rest ih =>
    rw [readManyAux, readManyAux, h a (List.mem_cons_self a rest),
      ih (fun x hx => h x (List.mem_cons_of_mem a hx))]

/-- Readout from inside a closed region is unaffected by overwriting a
cell below the region. -/
theorem readoutAddr_set_stable :
    ∀ (g : Nat) (h : Heap) (n b : Nat) (v : HNode),
      RegionClosed h n → b < n →
      ∀ a, n ≤ a → readoutAddr g (writeCell h b v) a = readoutAddr g h a := by
  intro g
  induction g with
  | zero => intro h n b v hreg hb a ha; rfl
  | succ g ih =>
    intro h n b v hreg hb a ha
    rw [readoutAddr, readoutAddr]
    have hget : (writeCell h b v).get? a = h.get? a := by
      show (h.set b v).get? a = h.get? a
      exact List.get?_set_ne _ _ (by omega)
    rw [hget]
    cases hnode : h.get? a with
    | none => rfl
    | some node =>
      cases node with
      | prim p => rfl
      | arr elems =>
        have hmem : ∀ c ∈ elems, n ≤ c := hreg a (.arr elems) ha hnode
        show Option.map (fun ts => DTree.arr ts)
            (readManyAux (readoutAddr g (writeCell h b v)) elems) =
          Option.map (fun ts => DTree.arr ts) (readManyAux (readoutAddr g h) elems)
        rw [readManyAux_congr (readoutAddr g (writeCell h b v)) (readoutAddr g h) elems
          (fun c hc => ih h n b v hreg hb c (hmem c hc))]
      | obj fields =>
        have hmem : ∀ c ∈ fields.map (fun kv => kv.2), n ≤ c :=
          hreg a (.obj fields) ha hnode
        show (match readManyAux (readoutAddr g (writeCell h b v))
              (fields.map (fun kv => kv.2)) with
          | some ts => some (DTree.obj
              (List.zip (fields.map (fun (kv : String × Nat) => kv.1)) ts))
          | none => none) =
          (match readManyAux (readoutAddr g h) (fields.map (fun kv => kv.2)) with
          | some ts => some (DTree.obj
              (List.zip (fields.map (fun (kv : String × Nat) => kv.1)) ts))
          | none => none)
        rw [readManyAux_congr (readoutAddr g (writeCell h b v)) (readoutAddr g h)
          (fields.map (fun kv => kv.2))
          (fun c hc => ih h n b v hreg hb c (hmem c hc))]

/-- Claim C8: `RollbackManager.snapshot` stores a deep copy — after
`deepClone` produces the snapshot's data, overwriting any pre-existing
cell (in particular any cell of the original object) leaves the readout
of the cloned value unchanged. -/
theorem deepClone_snapshot_immune_to_mutation (fuel : Nat) (h : Heap) (root : HVal)
    (h' : Heap) (root' : HVal) (g b : Nat) (v : HNode)
    (hclone : deepClone fuel h root = some (h', root'))
    (hb : b < h.length) :
    readoutVal g (writeCell h' b v) root' = readoutVal g h' root' := by
  cases root with
  | prim p =>
    cases hclone
    rfl
  | ref a =>
    rw [deepClone] at hclone
    cases hca : cloneAddr fuel h a with
    | none => rw [hca] at hclone; exact Option.noConfusion hclone
    | some q =>
      obtain ⟨h'', a'⟩ := q
      rw [hca] at hclone
      have hclone2 : (some (h'', HVal.ref a') : Option (Heap × HVal)) =
          some (h', root') := hclone
      injection hclone2 with hpair
      injection hpair with hh hr
      subst hh
      subst hr
      obtain ⟨⟨ext, hext⟩, hna', hreg⟩ :=
        cloneAddr_region fuel h a h'' a' h.length le_rfl (regionClosed_at_length h) hca
      exact readoutAddr_set_stable g h'' h.length b v hreg hb a' hna'

/-- Witness for claim C8: clone the two-cell object, overwrite the
original's inner cell, and observe the cloned readout unchanged. -/
theorem deepClone_snapshot_immune_witness :
    deepClone 3 cloneDemoHeap (.ref 1) = some (cloneDemoHeapAfter, .ref 3) ∧
    0 < cloneDemoHeap.length ∧
    readoutVal 5 (writeCell cloneDemoHeapAfter 0 (.prim (.pbool false))) (.ref 3) =
      readoutVal 5 cloneDemoHeapAfter (.ref 3) := by
  have hc : deepClone 3 cloneDemoHeap (.ref 1) = some (cloneDemoHeapAfter, .ref 3) := by
    decide
  exact ⟨hc, by decide,
    deepClone_snapshot_immune_to_mutation 3 cloneDemoHeap (.ref 1) cloneDemoHeapAfter
      (.ref 3) 5 0 (.prim (.pbool false)) hc (by decide)⟩

end Synapse
